import Mathlib

/-!
Verification of the conversational flow engine of the year-end helper bot
(sources: flow_core.py and bot_app.py).

Strings are modelled as lists of Unicode scalar values (Lean Char), mirroring
Python str as a sequence of code points.  Every definition below is a shallow
embedding of the correspondingly named Python function; external collaborators
(the chat transport, file existence, the admin id, the wall clock, the script
texts) are passed in as explicit parameters.
-/

namespace YearEndBot

/-- Python str modelled as a list of Unicode scalar values. -/
abbrev Str := List Char

/-- Coerce a Lean string literal to the Str model. -/
def strM (s : String) : Str := s.data

/- ### MarkdownEscaper: flow_core.escape_md_v2 -/

/-- The base MarkdownV2 character class of escape_md_v2
(regex group: backslash [ ] ( ) ~ backtick > # + - = | curly braces . !),
given by code point. -/
def baseSpecial (c : Char) : Bool :=
  decide (c.toNat = 92 ∨ c.toNat = 91 ∨ c.toNat = 93 ∨ c.toNat = 40 ∨
    c.toNat = 41 ∨ c.toNat = 126 ∨ c.toNat = 96 ∨ c.toNat = 62 ∨
    c.toNat = 35 ∨ c.toNat = 43 ∨ c.toNat = 45 ∨ c.toNat = 61 ∨
    c.toNat = 124 ∨ c.toNat = 123 ∨ c.toNat = 125 ∨ c.toNat = 46 ∨
    c.toNat = 33)

/-- One character of the first re.sub pass of escape_md_v2: a character in the
base class is replaced by backslash-self, any other character is kept. -/
def baseEscChar (c : Char) : Str :=
  if baseSpecial c then ['\\', c] else [c]

/-- First pass of escape_md_v2: re.sub over the base class, character by
character. -/
def baseEscape : Str → Str
  | [] => []
  | c :: rest => baseEscChar c ++ baseEscape rest

/-- Is the character an underscore or an asterisk (the regex class of the
second re.sub pass when markdown is not allowed)? -/
def usChar (c : Char) : Bool :=
  decide (c.toNat = 95 ∨ c.toNat = 42)

/-- Second pass of escape_md_v2 when allow_markdown is false: escape every
underscore and asterisk of the already base-escaped string. -/
def usEscape : Str → Str
  | [] => []
  | c :: rest => (if usChar c then ['\\', c] else [c]) ++ usEscape rest

/-- Positions (0-based indices, counted from i) of the marker character in the
string; embeds the list comprehension of preserve_pairs. -/
def positionsFrom (marker : Char) : Nat → Str → List Nat
  | _, [] => []
  | i, c :: rest =>
    (if c = marker then [i] else []) ++ positionsFrom marker (i + 1) rest

/-- Output loop of preserve_pairs: a marker at a position in allowPos is kept
literal, a marker elsewhere is escaped, other characters are kept. -/
def preserveGo (marker : Char) (allowPos : List Nat) : Nat → Str → Str
  | _, [] => []
  | i, c :: rest =>
    (if c = marker then
      (if allowPos.contains i then [c] else ['\\', c])
    else [c]) ++ preserveGo marker allowPos (i + 1) rest

/-- flow_core.preserve_pairs: pair the positions of the marker left-to-right
as (1st,2nd), (3rd,4th), ...; paired positions stay literal, an unpaired
trailing marker is escaped. -/
def preserve_pairs (s : Str) (marker : Char) : Str :=
  let pos := positionsFrom marker 0 s
  if pos.isEmpty then s
  else preserveGo marker (pos.take (2 * (pos.length / 2))) 0 s

/-- flow_core.escape_md_v2 on strings: base pass, then either escape all
underscores and asterisks (allow_markdown = false) or keep paired emphasis
markers literal (allow_markdown = true). -/
def escape_md_v2 (text : Str) (allow_markdown : Bool := false) : Str :=
  let escaped := baseEscape text
  if !allow_markdown then usEscape escaped
  else preserve_pairs (preserve_pairs escaped '*') '_'

/-- Python values as fed to escape_md_v2 at runtime: the function receives
str or arbitrary other objects (the isinstance guard). -/
inductive PyVal where
  | pyStr (s : Str)
  | pyInt (n : Int)
  | pyBool (b : Bool)
  | pyNone
  deriving DecidableEq, Repr

/-- Is the dynamic value a Python str? -/
def PyVal.isStr : PyVal → Bool
  | .pyStr _ => true
  | _ => false

/-- flow_core.escape_md_v2 including its isinstance guard: a non-str value is
returned unchanged, a str value is escaped. -/
def escape_md_v2_val (v : PyVal) (allow_markdown : Bool := false) : PyVal :=
  match v with
  | .pyStr s => .pyStr (escape_md_v2 s allow_markdown)
  | other => other

/- ### AnswerMatcher: bot_app.normalize_label -/

/-- Python regex \s and str.strip whitespace for text patterns: ASCII
whitespace plus the Unicode whitespace code points. -/
def pyIsSpace (c : Char) : Bool :=
  decide (c.toNat = 32 ∨ c.toNat = 9 ∨ c.toNat = 10 ∨ c.toNat = 11 ∨
    c.toNat = 12 ∨ c.toNat = 13 ∨ c.toNat = 28 ∨ c.toNat = 29 ∨
    c.toNat = 30 ∨ c.toNat = 31 ∨ c.toNat = 133 ∨ c.toNat = 160 ∨
    c.toNat = 5760 ∨ (8192 ≤ c.toNat ∧ c.toNat ≤ 8202) ∨ c.toNat = 8232 ∨
    c.toNat = 8233 ∨ c.toNat = 8239 ∨ c.toNat = 8287 ∨ c.toNat = 12288)

/-- Python str.replace for a single code point: map every occurrence of the
character with the given code point to the replacement character. -/
def pyReplaceChar (code : Nat) (r : Char) (s : Str) : Str :=
  s.map (fun c => if c.toNat = code then r else c)

/-- re.sub of one-or-more whitespace with a single space, written with an
in-run flag: the first character of every maximal whitespace run becomes one
space, the rest of the run is dropped, other characters are kept. -/
def collapseAux : Bool → Str → Str
  | _, [] => []
  | inRun, c :: rest =>
    if pyIsSpace c then
      (if inRun then [] else [' ']) ++ collapseAux true rest
    else c :: collapseAux false rest

/-- The whitespace-collapsing step of normalize_label. -/
def collapseWs (s : Str) : Str := collapseAux false s

/-- The trailing half of Python str.strip: drop whitespace from the end. -/
def dropTrailingWs : Str → Str
  | [] => []
  | c :: rest =>
    match dropTrailingWs rest with
    | [] => if pyIsSpace c then [] else [c]
    | r => c :: r

/-- Python str.strip: drop whitespace from both ends. -/
def pyStrip (s : Str) : Str := dropTrailingWs (s.dropWhile pyIsSpace)

/-- Python str.lower restricted to the alphabets the bot script uses: ASCII
letters and the Cyrillic block (А..Я shifts by 32, Ѐ..Џ shifts by 80); every
other code point is left unchanged. -/
def pyLower (c : Char) : Char :=
  if (65 ≤ c.toNat ∧ c.toNat ≤ 90) ∨ (1040 ≤ c.toNat ∧ c.toNat ≤ 1071) then
    Char.ofNat (c.toNat + 32)
  else if 1024 ≤ c.toNat ∧ c.toNat ≤ 1039 then
    Char.ofNat (c.toNat + 80)
  else c

/-- Python str.lower on a string: pointwise. -/
def pyLowerStr (s : Str) : Str := s.map pyLower

/-- bot_app.normalize_label on a str argument: replace NBSP by a space, the
curly single quotes by an apostrophe (code 39) and the curly double quotes by
a straight double quote (code 34), collapse whitespace runs to one space,
strip, lower-case. (The None guard of the Python function returns "" and is
handled by the Option-typed callers below.) -/
def normalize_label (s : Str) : Str :=
  pyLowerStr (pyStrip (collapseWs
    (pyReplaceChar 8221 (Char.ofNat 34)
      (pyReplaceChar 8220 (Char.ofNat 34)
        (pyReplaceChar 8216 (Char.ofNat 39)
          (pyReplaceChar 8217 (Char.ofNat 39)
            (pyReplaceChar 160 ' ' s)))))))

/- ### Decimal representation: str(int(time.time())) -/

/-- One decimal digit as a character. -/
def digitChar (n : Nat) : Char := Char.ofNat (48 + n)

/-- Decimal digits of a number, most significant first, with a structural
fuel bound (any fuel above the number itself is enough). -/
def natStrAux : Nat → Nat → Str
  | 0, _ => []
  | fuel + 1, n =>
    if n < 10 then [digitChar n]
    else natStrAux fuel (n / 10) ++ [digitChar (n % 10)]

/-- Python str of a non-negative int: decimal digits, most significant
first. -/
def natStr (n : Nat) : Str := natStrAux (n + 1) n

/-- Decode a digit character back to its value. -/
def digitVal (c : Char) : Nat := c.toNat - 48

/-- Value of a digit string, most significant first. -/
def digitsVal (s : Str) : Nat := s.foldl (fun acc c => 10 * acc + digitVal c) 0

/- ### Data model: session, steps, flow, outbound effects -/

/-- meta["pending_payment"]: the transient payment sub-state. -/
structure PendingPayment where
  order_tag : Str
  method : Str
  deriving DecidableEq, Repr

/-- The session meta mapping; pending_payment is the only key the handlers
read or write. -/
structure Meta where
  pending_payment : Option PendingPayment := none
  deriving DecidableEq, Repr

/-- The empty meta mapping written by FlowManager.start. -/
def emptyMeta : Meta := {}

/-- FSM data of one user: the flow name, the current step id, the meta
mapping (keys "flow", "step", "meta"). -/
structure SessionData where
  flow : Option Str := none
  step : Option Str := none
  meta : Meta := {}
  deriving DecidableEq, Repr

/-- Step.text: either a literal string or a callable of meta. -/
inductive StepText where
  | strText (s : Str)
  | fnText (f : Meta → Str)

/-- text = step.text(meta) if callable(step.text) else (step.text or ""). -/
def resolveText : StepText → Meta → Str
  | .strText s, _ => s
  | .fnText f, m => f m

/-- flow_core.Step as built by bot_app.build_flow_from_struct: the on_enter
hook of this bot only ever sends the optional document, so it is represented
by the document field. -/
structure Step where
  id : Str
  text : StepText
  reply_keyboard_descriptor : Option (List (List Str)) := none
  document : Option Str := none
  preformatted_md : Bool := false

/-- Python dict modelled as an association list where a later binding of the
same key overwrites an earlier one; get returns the last binding. -/
def dictGet (k : Str) : List (Str × α) → Option α
  | [] => none
  | (k', v) :: rest =>
    match dictGet k rest with
    | some r => some r
    | none => if k' = k then some v else none

/-- flow_core.FlowManager: a name and a step registry keyed by id. -/
structure FlowManager where
  name : Str
  steps : List (Str × Step)

/-- FlowManager.get_step. -/
def FlowManager.get_step (fm : FlowManager) (step_id : Str) : Option Step :=
  dictGet step_id fm.steps

/-- Reply-keyboard component of an outbound message.answer: no reply_markup
argument, ReplyKeyboardRemove, or a ReplyKeyboardMarkup of button rows. -/
inductive KbOut where
  | keep
  | remove
  | markup (rows : List (List Str))
  deriving DecidableEq, Repr

/-- Outbound effects of the handlers, in emission order: user-facing answers,
admin forwards/notifications (with the two inline decision callback
payloads), document/photo sends, broadcast sends, and the log records whose
content the spec constrains. -/
inductive Out where
  | answerMsg (text : Str) (kb : KbOut)
  | forwardTo (adminChat : Nat) (fromChat : Nat) (msgId : Nat)
  | adminMsg (adminChat : Nat) (text : Str) (confirmData : Str) (declineData : Str)
  | sendDoc (path : Str)
  | sendPhoto (path : Str)
  | sendTo (uid : Nat) (text : Str)
  | logUnmatched (raw : Str) (norm : Str) (stepId : Option Str) (labels : List Str)
  | logFail (uid : Nat)
  deriving DecidableEq, Repr

/-- FlowManager._enter_step: resolve the text, build the keyboard (remove it
when the descriptor is missing or empty), run on_enter (here: send the
existing document, if any), then send the escaped text unless it is empty.
File existence is the external collaborator fileExists. -/
def FlowManager.enter_step (step : Step) (fileExists : Str → Bool) (meta : Meta) : List Out :=
  let text := resolveText step.text meta
  let kb := match step.reply_keyboard_descriptor with
    | some rows => if rows.isEmpty then KbOut.remove else KbOut.markup rows
    | none => KbOut.remove
  let docOuts := match step.document with
    | some d => if fileExists d then [Out.sendDoc d] else []
    | none => []
  docOuts ++
    (if text.isEmpty then []
     else [Out.answerMsg (escape_md_v2 text step.preformatted_md) kb])

/-- FlowManager.start: on an unknown step id, answer with the escaped
"Шаг не найден" notice and leave the state untouched; otherwise overwrite
flow, step and meta (meta becomes empty) and enter the step. -/
def FlowManager.start (fm : FlowManager) (fileExists : Str → Bool)
    (sess : SessionData) (step_id : Str) : SessionData × List Out :=
  match fm.get_step step_id with
  | none =>
    (sess, [Out.answerMsg (escape_md_v2 (strM "Шаг не найден: " ++ step_id)) KbOut.keep])
  | some step =>
    let sess' : SessionData := { flow := some fm.name, step := some step_id, meta := emptyMeta }
    (sess', FlowManager.enter_step step fileExists emptyMeta)

/- ### bot_app.on_msg (the per-step message handler closure) -/

/-- Declared answer entry: the original label and its action descriptor. -/
inductive BotAction where
  | goto (target : Str)
  | screenshot (target : Option Str)
  | raw (payload : Str)
  | unknown
  deriving DecidableEq, Repr

/-- One value of the action_map built per step: original label plus action. -/
structure ActEntry where
  orig : Str
  action : BotAction
  deriving DecidableEq, Repr

/-- Inbound message as the handler reads it: optional text, whether a photo
or document is attached, sender id, chat id, message id. -/
structure MsgIn where
  text : Option Str := none
  hasMedia : Bool := false
  userId : Nat := 0
  chatId : Nat := 0
  messageId : Nat := 0
  deriving DecidableEq, Repr

/-- SYSTEM_TEXTS entries read by on_msg (script content, an external
collaborator). -/
structure SystemTexts where
  receipt_sent : Str := []
  receipt_send_failed : Str := []
  no_admin : Str := []
  use_buttons : Str := []
  send_receipt_instr : Str := []
  unknown_action : Str := []
  deriving DecidableEq, Repr

/-- bot_app.on_msg: first the receipt-submission check (media attached while
pending_payment is set: forward to the admin when configured — forwardOk
models whether the forward raises — then clear pending_payment); then label
matching with the unmatched fallback; then the payment-intent trigger check
on the matched text; then dispatch of the matched action. now is int(time
.time()). -/
def on_msg (fm : FlowManager) (map_local : List (Str × ActEntry))
    (texts : SystemTexts) (adminId : Option Nat) (forwardOk : Bool)
    (fileExists : Str → Bool) (now : Nat) (msg : MsgIn) (sess : SessionData) :
    SessionData × List Out :=
  let user_meta := sess.meta
  match msg.hasMedia, user_meta.pending_payment with
  | true, some pending =>
    let outs :=
      match adminId with
      | some aid =>
        if forwardOk then
          [Out.forwardTo aid msg.chatId msg.messageId,
           Out.adminMsg aid
             (escape_md_v2 (strM "Платёж от user_id=" ++ natStr msg.userId ++
               strM ", order=" ++ pending.order_tag ++ strM ", method=" ++ pending.method))
             (strM "pay_confirm:" ++ natStr msg.userId ++ strM ":" ++ pending.order_tag)
             (strM "pay_decline:" ++ natStr msg.userId ++ strM ":" ++ pending.order_tag),
           Out.answerMsg (escape_md_v2 texts.receipt_sent) KbOut.keep]
        else
          [Out.answerMsg (escape_md_v2 texts.receipt_send_failed) KbOut.keep]
      | none => [Out.answerMsg (escape_md_v2 texts.no_admin) KbOut.keep]
    ({ sess with meta := { user_meta with pending_payment := none } }, outs)
  | _, _ =>
    let txt_raw := msg.text.getD []
    let txt := normalize_label txt_raw
    match dictGet txt map_local with
    | none =>
      (sess,
       [Out.logUnmatched (txt_raw.take 200) (txt.take 200) sess.step
          (map_local.map (fun p => p.2.orig)),
        Out.answerMsg (escape_md_v2 texts.use_buttons) KbOut.keep])
    | some act_entry =>
      if (strM "оплатил").isPrefixOf (pyLowerStr txt) then
        ({ sess with meta := { user_meta with
            pending_payment := some (PendingPayment.mk (natStr now) txt) } },
         [Out.answerMsg (escape_md_v2 texts.send_receipt_instr) KbOut.remove])
      else
        match act_entry.action with
        | .goto t => fm.start fileExists sess t
        | .screenshot tgt =>
          let o1 := if fileExists (strM "screenshot1.png")
                    then [Out.sendPhoto (strM "screenshot1.png")] else []
          let o2 := if fileExists (strM "screenshot2.png")
                    then [Out.sendPhoto (strM "screenshot2.png")] else []
          match tgt with
          | some t =>
            let r := fm.start fileExists sess t
            (r.1, o1 ++ o2 ++ r.2)
          | none => (sess, o1 ++ o2)
        | .raw payload => (sess, [Out.answerMsg (escape_md_v2 payload) KbOut.keep])
        | .unknown => (sess, [Out.answerMsg (escape_md_v2 texts.unknown_action) KbOut.keep])

/- ### bot_app.cmd_broadcast (the fan-out loop) -/

/-- One iteration of the broadcast loop of cmd_broadcast: the send is
attempted; a send that raises (sendOk uid = false) is caught and logged and
the loop continues; sent is incremented only on success. -/
def broadcastStep (sendOk : Nat → Bool) (payload : Str)
    (acc : Nat × List Out) (uid : Nat) : Nat × List Out :=
  if sendOk uid then
    (acc.1 + 1, acc.2 ++ [Out.sendTo uid (escape_md_v2 payload)])
  else
    (acc.1, acc.2 ++ [Out.logFail uid])

/-- The broadcast loop of cmd_broadcast over the (sorted) known-user list. -/
def broadcast_send (users : List Nat) (sendOk : Nat → Bool) (payload : Str) :
    Nat × List Out :=
  users.foldl (broadcastStep sendOk payload) (0, [])

/-- cmd_broadcast after the loop: the admin report naming the sent count. -/
def cmd_broadcast_payload (users : List Nat) (sendOk : Nat → Bool)
    (payload : Str) : List Out :=
  let r := broadcast_send users sendOk payload
  r.2 ++ [Out.answerMsg (strM "Рассылка выполнена. Отправлено: " ++ natStr r.1 ++
    strM " пользователям.") KbOut.keep]

/- ### Spec-side predicates (used to state the claims) -/

/-- The character set of the spec sentence on escape(t, false): underscore,
asterisk, dot, exclamation mark, hyphen, by code point. -/
def badFive (c : Char) : Bool :=
  decide (c.toNat = 95 ∨ c.toNat = 42 ∨ c.toNat = 46 ∨ c.toNat = 33 ∨
    c.toNat = 45)

/-- Spec-side reading of "contains no unescaped occurrence": scanning left to
right, a backslash escapes the character right after it; every character not
consumed this way must lie outside the given set. -/
def noUnescapedBadFive : Str → Bool
  | [] => true
  | c :: rest =>
    if c = '\\' then
      match rest with
      | [] => true
      | _ :: rest2 => noUnescapedBadFive rest2
    else !(badFive c) && noUnescapedBadFive rest

/-- No two adjacent whitespace characters (used to describe the shape of
normalize_label output). -/
def noSpaceRun : Str → Bool
  | [] => true
  | [_] => true
  | a :: b :: rest => (!(pyIsSpace a && pyIsSpace b)) && noSpaceRun (b :: rest)

/- ### Concrete fixtures (used by witnesses and counterexamples) -/

/-- External file-existence collaborator that has no files. -/
def noFile : Str → Bool := fun _ => false

/-- A step of the script with one declared answer. -/
def stepOne : Step :=
  { id := strM "1", text := StepText.strText (strM "Привет!"),
    reply_keyboard_descriptor := some [[strM "Да"]] }

/-- A one-step flow as built by build_flow_from_struct. -/
def fmEx : FlowManager :=
  { name := strM "script_flow", steps := [(strM "1", stepOne)] }

/-- Concrete SYSTEM_TEXTS content. -/
def texEx : SystemTexts :=
  { receipt_sent := strM "Чек получен", receipt_send_failed := strM "Не удалось отправить чек",
    no_admin := strM "Админ не настроен", use_buttons := strM "Пожалуйста, используйте кнопки",
    send_receipt_instr := strM "Пришлите чек", unknown_action := strM "Неизвестное действие" }

/-- Declared answer mapping to a goto action. -/
def entryYes : ActEntry := { orig := strM "Да", action := BotAction.goto (strM "1") }

/-- Declared answer whose label begins with the payment trigger. -/
def entryPaid : ActEntry := { orig := strM "Оплатил картой", action := BotAction.raw (strM "ok") }

/-- An answer index without any payment label. -/
def mapNoPaid : List (Str × ActEntry) := [(strM "да", entryYes)]

/-- An answer index with both a plain and a payment label. -/
def mapEx : List (Str × ActEntry) :=
  [(strM "да", entryYes), (strM "оплатил картой", entryPaid)]

/-- A session currently at step 1 with empty meta. -/
def sessEx : SessionData :=
  { flow := some (strM "script_flow"), step := some (strM "1"), meta := {} }

/-- Payment-intent message from user 5. -/
def msgPaid : MsgIn :=
  { text := some (strM "Оплатил картой"), hasMedia := false, userId := 5,
    chatId := 5, messageId := 71 }

/-- Payment-intent message from user 6. -/
def msgPaid2 : MsgIn :=
  { text := some (strM "Оплатил картой"), hasMedia := false, userId := 6,
    chatId := 6, messageId := 72 }

/-- A photo upload (no text). -/
def msgPhoto : MsgIn :=
  { text := none, hasMedia := true, userId := 5, chatId := 5, messageId := 73 }

/-- A text matching no declared label. -/
def msgHello : MsgIn :=
  { text := some (strM "привет"), hasMedia := false, userId := 5,
    chatId := 5, messageId := 74 }

/-- A pending payment recorded at time 1000. -/
def pendEx : PendingPayment :=
  { order_tag := strM "1000", method := strM "оплатил картой" }

/-- A session holding a pending payment. -/
def sessPend : SessionData :=
  { flow := some (strM "script_flow"), step := some (strM "2"),
    meta := { pending_payment := some pendEx } }

/-! ## Theorems -/

/-- C10: escape_md_v2 returns every non-str input unchanged, without error;
escaping is only applied to str inputs. -/
theorem escape_nonStr_id (v : PyVal) (am : Bool) (h : v.isStr = false) :
    escape_md_v2_val v am = v := by
  cases v with
  | pyStr s => simp [PyVal.isStr] at h
  | pyInt n => rfl
  | pyBool b => rfl
  | pyNone => rfl

/-- Witness for C10 at the concrete non-str input 5. -/
theorem escape_nonStr_id_wit :
    escape_md_v2_val (PyVal.pyInt 5) true = PyVal.pyInt 5 :=
  escape_nonStr_id (PyVal.pyInt 5) true (by decide)

/-- Accumulator form of the broadcast loop count: the final sent value adds
the number of successful sends to the starting value. -/
theorem broadcast_foldl_fst (sendOk : Nat → Bool) (payload : Str) :
    ∀ (users : List Nat) (acc : Nat × List Out),
      (users.foldl (broadcastStep sendOk payload) acc).1 =
        acc.1 + users.countP sendOk := by
  intro users
  induction users with
  | nil => intro acc; simp
  | cons u rest ih =>
    intro acc
    simp only [List.foldl_cons, List.countP_cons]
    rw [ih]
    by_cases h : sendOk u
    · simp [broadcastStep, h]
      omega
    · simp [broadcastStep, h]

/-- Accumulator form of the broadcast loop outputs: every user is processed
in order, with a send on success and a caught-and-logged failure otherwise. -/
theorem broadcast_foldl_snd (sendOk : Nat → Bool) (payload : Str) :
    ∀ (users : List Nat) (acc : Nat × List Out),
      (users.foldl (broadcastStep sendOk payload) acc).2 =
        acc.2 ++ users.map (fun uid =>
          if sendOk uid then Out.sendTo uid (escape_md_v2 payload)
          else Out.logFail uid) := by
  intro users
  induction users with
  | nil => intro acc; simp
  | cons u rest ih =>
    intro acc
    simp only [List.foldl_cons, List.map_cons]
    rw [ih]
    by_cases h : sendOk u <;> simp [broadcastStep, h]

/-- A list splits into the elements satisfying a predicate and the rest. -/
theorem countP_add_countP_not (p : α → Bool) (l : List α) :
    l.countP p + l.countP (fun a => !p a) = l.length := by
  induction l with
  | nil => simp
  | cons u rest ih =>
    simp only [List.countP_cons, List.length_cons]
    by_cases h : p u <;> simp [h] <;> omega

/-- C8: broadcasting over N known users of which exactly K sends fail
reports a sent-count of exactly N − K, and every user is still processed (a
failing send is caught and logged, the remaining sends go out). -/
theorem broadcastExactCountResilient (users : List Nat) (sendOk : Nat → Bool)
    (payload : Str) (N K : Nat) (hN : users.length = N)
    (hK : users.countP (fun u => !sendOk u) = K) :
    (broadcast_send users sendOk payload).1 = N - K ∧
    (broadcast_send users sendOk payload).2 = users.map (fun uid =>
      if sendOk uid then Out.sendTo uid (escape_md_v2 payload)
      else Out.logFail uid) := by
  constructor
  · have h1 : (broadcast_send users sendOk payload).1 = users.countP sendOk := by
      unfold broadcast_send
      rw [broadcast_foldl_fst]
      simp
    have h2 := countP_add_countP_not sendOk users
    omega
  · unfold broadcast_send
    rw [broadcast_foldl_snd]
    simp

/-- Witness for C8: three users, the send to user 2 fails, report is 2. -/
theorem broadcastExactCountResilient_wit :
    (broadcast_send [1, 2, 3] (fun u => decide (u ≠ 2)) (strM "hi")).1 = 3 - 1 ∧
    (broadcast_send [1, 2, 3] (fun u => decide (u ≠ 2)) (strM "hi")).2 =
      [1, 2, 3].map (fun uid =>
        if decide (uid ≠ 2) then Out.sendTo uid (escape_md_v2 (strM "hi"))
        else Out.logFail uid) :=
  broadcastExactCountResilient [1, 2, 3] (fun u => decide (u ≠ 2)) (strM "hi")
    3 1 (by decide) (by decide)

/-- C5: start on an absent target answers with the "step not found" notice
and leaves the whole session unchanged; on a present target it resets meta
to empty, sets the current step id to the target and performs step entry. -/
theorem startAbsentPresent (fm : FlowManager) (fe : Str → Bool)
    (sess : SessionData) (target : Str) :
    (fm.get_step target = none →
      fm.start fe sess target =
        (sess, [Out.answerMsg (escape_md_v2 (strM "Шаг не найден: " ++ target))
          KbOut.keep])) ∧
    (∀ st, fm.get_step target = some st →
      fm.start fe sess target =
        ({ flow := some fm.name, step := some target, meta := emptyMeta },
         FlowManager.enter_step st fe emptyMeta)) := by
  constructor
  · intro h
    unfold FlowManager.start
    rw [h]
  · intro st h
    unfold FlowManager.start
    rw [h]

/-- Witness for C5: the one-step flow, at the absent target "9" and the
present target "1". -/
theorem startAbsentPresent_wit :
    fmEx.start noFile sessPend (strM "9") =
      (sessPend, [Out.answerMsg (escape_md_v2 (strM "Шаг не найден: " ++ strM "9"))
        KbOut.keep]) ∧
    fmEx.start noFile sessPend (strM "1") =
      ({ flow := some fmEx.name, step := some (strM "1"), meta := emptyMeta },
       FlowManager.enter_step stepOne noFile emptyMeta) :=
  ⟨(startAbsentPresent fmEx noFile sessPend (strM "9")).1 rfl,
   (startAbsentPresent fmEx noFile sessPend (strM "1")).2 stepOne rfl⟩

/-- C6: a text message that matches no declared label (and carries no
attachment) only logs the attempted raw and normalized text, the current
step id and the original labels, answers with the "use the buttons" notice,
and leaves the whole session — step id and meta included — unchanged. -/
theorem unmatchedTextKeepsSession (fm : FlowManager)
    (mapL : List (Str × ActEntry)) (texts : SystemTexts) (adminId : Option Nat)
    (fOk : Bool) (fe : Str → Bool) (now : Nat) (msg : MsgIn)
    (sess : SessionData) (hm : msg.hasMedia = false)
    (hu : dictGet (normalize_label (msg.text.getD [])) mapL = none) :
    on_msg fm mapL texts adminId fOk fe now msg sess =
      (sess,
       [Out.logUnmatched ((msg.text.getD []).take 200)
          ((normalize_label (msg.text.getD [])).take 200) sess.step
          (mapL.map (fun p => p.2.orig)),
        Out.answerMsg (escape_md_v2 texts.use_buttons) KbOut.keep]) := by
  unfold on_msg
  rw [hm]
  simp only [hu]

/-- Witness for C6: "привет" matches no label of the two-answer index. -/
theorem unmatchedTextKeepsSession_wit :
    on_msg fmEx mapEx texEx (some 99) true noFile 1000 msgHello sessEx =
      (sessEx,
       [Out.logUnmatched ((msgHello.text.getD []).take 200)
          ((normalize_label (msgHello.text.getD [])).take 200) sessEx.step
          (mapEx.map (fun p => p.2.orig)),
        Out.answerMsg (escape_md_v2 texEx.use_buttons) KbOut.keep]) :=
  unmatchedTextKeepsSession fmEx mapEx texEx (some 99) true noFile 1000
    msgHello sessEx rfl (by decide)

/-- C2: an attachment while pending_payment is set clears pending_payment in
every branch — forward succeeded, forward failed, admin unconfigured — and
on forward failure the user gets the failure notice instead of the success
acknowledgement. -/
theorem receiptUploadClearsPending (fm : FlowManager)
    (mapL : List (Str × ActEntry)) (texts : SystemTexts) (adminId : Option Nat)
    (fOk : Bool) (fe : Str → Bool) (now : Nat) (msg : MsgIn)
    (sess : SessionData) (p : PendingPayment) (hm : msg.hasMedia = true)
    (hp : sess.meta.pending_payment = some p) :
    on_msg fm mapL texts adminId fOk fe now msg sess =
      ({ sess with meta := { sess.meta with pending_payment := none } },
       match adminId with
       | some aid =>
         if fOk then
           [Out.forwardTo aid msg.chatId msg.messageId,
            Out.adminMsg aid
              (escape_md_v2 (strM "Платёж от user_id=" ++ natStr msg.userId ++
                strM ", order=" ++ p.order_tag ++ strM ", method=" ++ p.method))
              (strM "pay_confirm:" ++ natStr msg.userId ++ strM ":" ++ p.order_tag)
              (strM "pay_decline:" ++ natStr msg.userId ++ strM ":" ++ p.order_tag),
            Out.answerMsg (escape_md_v2 texts.receipt_sent) KbOut.keep]
         else
           [Out.answerMsg (escape_md_v2 texts.receipt_send_failed) KbOut.keep]
       | none => [Out.answerMsg (escape_md_v2 texts.no_admin) KbOut.keep]) := by
  unfold on_msg
  rw [hm]
  simp only [hp]

/-- Witness for C2: a photo upload while sessPend holds a pending payment,
with the admin configured and the forward failing: pending is cleared and
the failure notice is the only answer. -/
theorem receiptUploadClearsPending_wit :
    on_msg fmEx mapEx texEx (some 99) false noFile 1000 msgPhoto sessPend =
      ({ sessPend with meta := { sessPend.meta with pending_payment := none } },
       [Out.answerMsg (escape_md_v2 texEx.receipt_send_failed) KbOut.keep]) :=
  receiptUploadClearsPending fmEx mapEx texEx (some 99) false noFile 1000
    msgPhoto sessPend pendEx rfl rfl

/-- Char.ofNat on a valid scalar value round-trips through toNat. -/
theorem charToNat_ofNat (n : Nat) (h : n.isValidChar) :
    (Char.ofNat n).toNat = n := by
  simp only [Char.ofNat, dif_pos h, Char.ofNatAux, Char.toNat]
  simp [UInt32.toNat, UInt32.ofNatCore]

/-- digitChar decodes back to the digit it encodes. -/
theorem digitVal_digitChar (d : Nat) (h : d < 10) :
    digitVal (digitChar d) = d := by
  unfold digitVal digitChar
  rw [charToNat_ofNat]
  · omega
  · left
    omega

/-- digitsVal peels the last digit. -/
theorem digitsVal_append (s : Str) (c : Char) :
    digitsVal (s ++ [c]) = 10 * digitsVal s + digitVal c := by
  unfold digitsVal
  rw [List.foldl_append]
  rfl

/-- natStrAux round-trips through digitsVal whenever the fuel exceeds the
number. -/
theorem digitsVal_natStrAux :
    ∀ (fuel n : Nat), n < fuel → digitsVal (natStrAux fuel n) = n := by
  intro fuel
  induction fuel with
  | zero => omega
  | succ f ih =>
    intro n hn
    unfold natStrAux
    by_cases h : n < 10
    · rw [if_pos h]
      simp [digitsVal, digitVal_digitChar n h]
    · rw [if_neg h]
      have hd : n / 10 < n := Nat.div_lt_self (by omega) (by omega)
      rw [digitsVal_append, ih (n / 10) (by omega),
        digitVal_digitChar (n % 10) (by omega)]
      omega

/-- natStr round-trips through digitsVal. -/
theorem digitsVal_natStr (n : Nat) : digitsVal (natStr n) = n :=
  digitsVal_natStrAux (n + 1) n (by omega)

/-- The decimal representation is never empty. -/
theorem natStr_ne_nil (n : Nat) : natStr n ≠ [] := by
  unfold natStr natStrAux
  by_cases h : n < 10
  · rw [if_pos h]
    simp
  · rw [if_neg h]
    simp

/-- Two distinct timestamps give distinct decimal representations. -/
theorem natStr_injective (a b : Nat) (h : natStr a = natStr b) : a = b := by
  have ha := digitsVal_natStr a
  rw [h, digitsVal_natStr] at ha
  omega

/-- Shape of on_msg when the normalized text matches a declared label and
begins with the payment trigger: pending_payment is written with the
time-derived tag and the normalized method, the keyboard is removed, the
receipt instruction is the only send, and no action dispatch happens. -/
theorem on_msg_trigger_eq (fm : FlowManager) (mapL : List (Str × ActEntry))
    (texts : SystemTexts) (adminId : Option Nat) (fOk : Bool)
    (fe : Str → Bool) (now : Nat) (msg : MsgIn) (sess : SessionData)
    (entry : ActEntry) (hm : msg.hasMedia = false)
    (he : dictGet (normalize_label (msg.text.getD [])) mapL = some entry)
    (ht : (strM "оплатил").isPrefixOf
      (pyLowerStr (normalize_label (msg.text.getD []))) = true) :
    on_msg fm mapL texts adminId fOk fe now msg sess =
      ({ sess with meta := { sess.meta with
          pending_payment := some (PendingPayment.mk (natStr now)
            (normalize_label (msg.text.getD []))) } },
       [Out.answerMsg (escape_md_v2 texts.send_receipt_instr) KbOut.remove]) := by
  unfold on_msg
  rw [hm]
  simp only [he, ht, if_true]

/-- C1 counterexample: the inbound text "Оплатил картой" normalizes to a
string beginning with the trigger word, but because it matches no declared
label of mapNoPaid the handler takes the unmatched-fallback path: no
pending_payment is stored and no receipt instruction is sent. -/
theorem paidTriggerUnmatched_cex :
    (on_msg fmEx mapNoPaid texEx (some 99) true noFile 1000 msgPaid
      sessEx).1.meta.pending_payment = none ∧
    (strM "оплатил").isPrefixOf
      (pyLowerStr (normalize_label (msgPaid.text.getD []))) = true ∧
    (on_msg fmEx mapNoPaid texEx (some 99) true noFile 1000 msgPaid
      sessEx).2 =
      [Out.logUnmatched (strM "Оплатил картой") (strM "оплатил картой")
        (some (strM "1")) [strM "Да"],
       Out.answerMsg (escape_md_v2 texEx.use_buttons) KbOut.keep] := by
  decide

/-- C1 (amended): only when the normalized text also matches a declared
label does the payment-intent check fire, after label matching but before
action dispatch: pending_payment is set to the time token and normalized
method, the keyboard is cleared, the receipt instruction is sent, and
nothing further is dispatched this turn. -/
theorem paidTriggerAfterLabelMatch (fm : FlowManager)
    (mapL : List (Str × ActEntry)) (texts : SystemTexts) (adminId : Option Nat)
    (fOk : Bool) (fe : Str → Bool) (now : Nat) (msg : MsgIn)
    (sess : SessionData) (entry : ActEntry) (hm : msg.hasMedia = false)
    (he : dictGet (normalize_label (msg.text.getD [])) mapL = some entry)
    (ht : (strM "оплатил").isPrefixOf
      (pyLowerStr (normalize_label (msg.text.getD []))) = true) :
    on_msg fm mapL texts adminId fOk fe now msg sess =
      ({ sess with meta := { sess.meta with
          pending_payment := some (PendingPayment.mk (natStr now)
            (normalize_label (msg.text.getD []))) } },
       [Out.answerMsg (escape_md_v2 texts.send_receipt_instr) KbOut.remove]) :=
  on_msg_trigger_eq fm mapL texts adminId fOk fe now msg sess entry hm he ht

/-- Witness for the amended C1: "Оплатил картой" matches the declared label
of mapEx, so pending_payment is set at time 1000 and the keyboard cleared. -/
theorem paidTriggerAfterLabelMatch_wit :
    on_msg fmEx mapEx texEx (some 99) true noFile 1000 msgPaid sessEx =
      ({ sessEx with meta := { sessEx.meta with
          pending_payment := some (PendingPayment.mk (natStr 1000)
            (normalize_label (msgPaid.text.getD []))) } },
       [Out.answerMsg (escape_md_v2 texEx.send_receipt_instr) KbOut.remove]) :=
  paidTriggerAfterLabelMatch fmEx mapEx texEx (some 99) true noFile 1000
    msgPaid sessEx entryPaid rfl (by decide) (by decide)

/-- C9 counterexample: two distinct payment-intent activations (different
users, different messages) processed in the same wall-clock second 1000 are
assigned the identical orderTag. -/
theorem orderTagSameSecond_cex :
    msgPaid ≠ msgPaid2 ∧
    Option.map PendingPayment.order_tag
      ((on_msg fmEx mapEx texEx (some 99) true noFile 1000 msgPaid
        sessEx).1.meta.pending_payment) = some (natStr 1000) ∧
    Option.map PendingPayment.order_tag
      ((on_msg fmEx mapEx texEx (some 99) true noFile 1000 msgPaid2
        sessEx).1.meta.pending_payment) = some (natStr 1000) := by
  decide

/-- C9 (amended): every payment-intent activation stores a non-empty
orderTag equal to the decimal of the activation second; activations in
distinct seconds get distinct orderTags (same-second activations share
one). -/
theorem orderTagNonemptyTimeDerived (fm : FlowManager)
    (mapL : List (Str × ActEntry)) (texts : SystemTexts) (adminId : Option Nat)
    (fOk : Bool) (fe : Str → Bool) (now : Nat) (msg : MsgIn)
    (sess : SessionData) (entry : ActEntry) (hm : msg.hasMedia = false)
    (he : dictGet (normalize_label (msg.text.getD [])) mapL = some entry)
    (ht : (strM "оплатил").isPrefixOf
      (pyLowerStr (normalize_label (msg.text.getD []))) = true) :
    (on_msg fm mapL texts adminId fOk fe now msg sess).1.meta.pending_payment
      = some (PendingPayment.mk (natStr now)
          (normalize_label (msg.text.getD []))) ∧
    natStr now ≠ [] ∧
    (∀ n₁ n₂ : Nat, natStr n₁ = natStr n₂ → n₁ = n₂) := by
  refine ⟨?_, natStr_ne_nil now, natStr_injective⟩
  rw [on_msg_trigger_eq fm mapL texts adminId fOk fe now msg sess entry hm he ht]

/-- Witness for the amended C9 at the concrete activation of time 1000. -/
theorem orderTagNonemptyTimeDerived_wit :
    (on_msg fmEx mapEx texEx (some 99) true noFile 1000 msgPaid
      sessEx).1.meta.pending_payment
      = some (PendingPayment.mk (natStr 1000)
          (normalize_label (msgPaid.text.getD []))) ∧
    natStr 1000 ≠ [] ∧
    (∀ n₁ n₂ : Nat, natStr n₁ = natStr n₂ → n₁ = n₂) :=
  orderTagNonemptyTimeDerived fmEx mapEx texEx (some 99) true noFile 1000
    msgPaid sessEx entryPaid rfl (by decide) (by decide)

/-- C3: with allowMarkup true, escape is the base pass followed by the
left-to-right pairing pass for asterisks and then the identical, independent
pass for underscores; in particular "I *really* like it" keeps both
asterisks and "a*b*c*d" keeps the first two and escapes the third. -/
theorem escapeAllowMarkupPairing :
    (∀ s : Str, escape_md_v2 s true =
      preserve_pairs (preserve_pairs (baseEscape s) '*') '_') ∧
    escape_md_v2 (strM "I *really* like it") true = strM "I *really* like it" ∧
    escape_md_v2 (strM "a*b*c*d") true = strM "a*b*c\\*d" :=
  ⟨fun _ => rfl, by decide, by decide⟩

/-- usEscape distributes over append. -/
theorem usEscape_append (a b : Str) :
    usEscape (a ++ b) = usEscape a ++ usEscape b := by
  induction a with
  | nil => rfl
  | cons c rest ih => simp [usEscape, ih]

/-- C4: for every input, escape with allowMarkup false leaves no unescaped
underscore, asterisk, dot, exclamation mark or hyphen: scanning the output,
each such character is consumed by the backslash immediately before it. -/
theorem escapeFalseNoUnescaped (s : Str) :
    noUnescapedBadFive (escape_md_v2 s false) = true := by
  show noUnescapedBadFive (usEscape (baseEscape s)) = true
  induction s with
  | nil => rfl
  | cons c rest ih =>
    show noUnescapedBadFive (usEscape (baseEscChar c ++ baseEscape rest)) = true
    rw [usEscape_append]
    by_cases hb : baseSpecial c = true
    · have e1 : usChar '\\' = false := by decide
      have e2 : usChar c = false := by
        simp only [baseSpecial, decide_eq_true_eq] at hb
        simp only [usChar, decide_eq_false_iff_not]
        omega
      simp only [baseEscChar, if_pos hb, usEscape, e1, e2, Bool.false_eq_true,
        if_false, List.nil_append, List.cons_append, List.append_nil]
      simpa [noUnescapedBadFive] using ih
    · have hbn : baseSpecial c = false := by
        revert hb
        cases baseSpecial c <;> simp
      simp only [baseEscChar, hbn, Bool.false_eq_true, if_false,
        List.cons_append, List.nil_append]
      by_cases hu : usChar c = true
      · simp only [usEscape, hu, if_true, List.cons_append, List.nil_append,
          List.append_nil]
        simpa [noUnescapedBadFive] using ih
      · have hun : usChar c = false := by
          revert hu
          cases usChar c <;> simp
        have hcn : ¬(c = '\\') := by
          intro hh
          rw [hh] at hbn
          exact (by decide : baseSpecial '\\' ≠ false) hbn
        have hbad : badFive c = false := by
          simp only [baseSpecial, decide_eq_false_iff_not] at hbn
          simp only [usChar, decide_eq_false_iff_not] at hun
          simp only [badFive, decide_eq_false_iff_not]
          omega
        simp only [usEscape, hun, Bool.false_eq_true, if_false,
          List.cons_append, List.nil_append]
        unfold noUnescapedBadFive
        rw [if_neg hcn]
        simp [hbad, ih]

/-- pyLower leaves a character outside the upper-case ranges unchanged. -/
theorem pyLower_fix (c : Char)
    (h1 : ¬((65 ≤ c.toNat ∧ c.toNat ≤ 90) ∨ (1040 ≤ c.toNat ∧ c.toNat ≤ 1071)))
    (h2 : ¬(1024 ≤ c.toNat ∧ c.toNat ≤ 1039)) : pyLower c = c := by
  unfold pyLower
  rw [if_neg h1, if_neg h2]

/-- Code point of pyLower: shifted by 32 or 80 on the upper-case ranges,
unchanged elsewhere. -/
theorem pyLower_toNat (c : Char) :
    (pyLower c).toNat =
      if (65 ≤ c.toNat ∧ c.toNat ≤ 90) ∨ (1040 ≤ c.toNat ∧ c.toNat ≤ 1071) then
        c.toNat + 32
      else if 1024 ≤ c.toNat ∧ c.toNat ≤ 1039 then c.toNat + 80
      else c.toNat := by
  unfold pyLower
  by_cases h1 : (65 ≤ c.toNat ∧ c.toNat ≤ 90) ∨ (1040 ≤ c.toNat ∧ c.toNat ≤ 1071)
  · rw [if_pos h1, if_pos h1, charToNat_ofNat]
    left
    omega
  · rw [if_neg h1, if_neg h1]
    by_cases h2 : 1024 ≤ c.toNat ∧ c.toNat ≤ 1039
    · rw [if_pos h2, if_pos h2, charToNat_ofNat]
      left
      omega
    · rw [if_neg h2, if_neg h2]

/-- pyLower is idempotent. -/
theorem pyLower_idem (c : Char) : pyLower (pyLower c) = pyLower c := by
  have ht := pyLower_toNat c
  by_cases h1 : (65 ≤ c.toNat ∧ c.toNat ≤ 90) ∨ (1040 ≤ c.toNat ∧ c.toNat ≤ 1071)
  · rw [if_pos h1] at ht
    exact pyLower_fix _ (by omega) (by omega)
  · rw [if_neg h1] at ht
    by_cases h2 : 1024 ≤ c.toNat ∧ c.toNat ≤ 1039
    · rw [if_pos h2] at ht
      exact pyLower_fix _ (by omega) (by omega)
    · rw [if_neg h2] at ht
      have hfix : pyLower c = c := pyLower_fix c h1 h2
      rw [hfix, hfix]

/-- pyLower maps whitespace to whitespace and non-whitespace to
non-whitespace. -/
theorem pyIsSpace_pyLower (c : Char) : pyIsSpace (pyLower c) = pyIsSpace c := by
  have ht := pyLower_toNat c
  by_cases h1 : (65 ≤ c.toNat ∧ c.toNat ≤ 90) ∨ (1040 ≤ c.toNat ∧ c.toNat ≤ 1071)
  · rw [if_pos h1] at ht
    have ha : pyIsSpace (pyLower c) = false := by
      simp only [pyIsSpace, decide_eq_false_iff_not]
      omega
    have hb : pyIsSpace c = false := by
      simp only [pyIsSpace, decide_eq_false_iff_not]
      omega
    rw [ha, hb]
  · rw [if_neg h1] at ht
    by_cases h2 : 1024 ≤ c.toNat ∧ c.toNat ≤ 1039
    · rw [if_pos h2] at ht
      have ha : pyIsSpace (pyLower c) = false := by
        simp only [pyIsSpace, decide_eq_false_iff_not]
        omega
      have hb : pyIsSpace c = false := by
        simp only [pyIsSpace, decide_eq_false_iff_not]
        omega
      rw [ha, hb]
    · rw [pyLower_fix c h1 h2]

/-- Characters of the collapsed string are either the inserted space or
non-whitespace characters of the input. -/
theorem collapseAux_mem :
    ∀ (l : Str) (b : Bool) (c : Char), c ∈ collapseAux b l →
      c = ' ' ∨ (c ∈ l ∧ pyIsSpace c = false) := by
  intro l
  induction l with
  | nil =>
    intro b c hc
    simp [collapseAux] at hc
  | cons a rest ih =>
    intro b c hc
    unfold collapseAux at hc
    by_cases ha : pyIsSpace a = true
    · rw [if_pos ha] at hc
      rcases List.mem_append.mp hc with h | h
      · left
        cases b with
        | true => simp at h
        | false => simpa using h
      · rcases ih true c h with h' | ⟨hmem, hns⟩
        · left
          exact h'
        · right
          exact ⟨List.mem_cons_of_mem _ hmem, hns⟩
    · rw [if_neg ha] at hc
      rcases List.mem_cons.mp hc with h | h
      · right
        rw [h]
        exact ⟨List.mem_cons_self _ _, by simpa using ha⟩
      · rcases ih false c h with h' | ⟨hmem, hns⟩
        · left
          exact h'
        · right
          exact ⟨List.mem_cons_of_mem _ hmem, hns⟩

/-- In run mode the collapsed string never starts with whitespace. -/
theorem collapseAux_true_headNotSpace :
    ∀ (l : Str) (x : Char) (xs : Str),
      collapseAux true l = x :: xs → pyIsSpace x = false := by
  intro l
  induction l with
  | nil =>
    intro x xs h
    simp [collapseAux] at h
  | cons a rest ih =>
    intro x xs h
    unfold collapseAux at h
    by_cases ha : pyIsSpace a = true
    · rw [if_pos ha] at h
      simp only [if_pos rfl, List.nil_append] at h
      exact ih x xs h
    · rw [if_neg ha] at h
      injection h with h1 _
      rw [← h1]
      simpa using ha

/-- Unfolding noSpaceRun at two or more characters. -/
theorem noSpaceRun_cons2 (x y : Char) (t : Str) :
    noSpaceRun (x :: y :: t) =
      ((!(pyIsSpace x && pyIsSpace y)) && noSpaceRun (y :: t)) := rfl

/-- noSpaceRun only looks at adjacent pairs, so it passes to the tail. -/
theorem noSpaceRun_tail (x : Char) (t : Str)
    (h : noSpaceRun (x :: t) = true) : noSpaceRun t = true := by
  cases t with
  | nil => rfl
  | cons y ys =>
    rw [noSpaceRun_cons2, Bool.and_eq_true] at h
    exact h.2

/-- The collapsed string has no two adjacent whitespace characters. -/
theorem noSpaceRun_collapseAux :
    ∀ (l : Str) (b : Bool), noSpaceRun (collapseAux b l) = true := by
  intro l
  induction l with
  | nil =>
    intro b
    rfl
  | cons a rest ih =>
    intro b
    unfold collapseAux
    by_cases ha : pyIsSpace a = true
    · rw [if_pos ha]
      cases b with
      | true =>
        simpa using ih true
      | false =>
        show noSpaceRun (' ' :: collapseAux true rest) = true
        cases hR : collapseAux true rest with
        | nil => rfl
        | cons y ys =>
          rw [noSpaceRun_cons2]
          have hy : pyIsSpace y = false := collapseAux_true_headNotSpace rest y ys hR
          have hrun : noSpaceRun (y :: ys) = true := by
            rw [← hR]
            exact ih true
          simp [hy, hrun]
    · rw [if_neg ha]
      cases hR : collapseAux false rest with
      | nil => rfl
      | cons y ys =>
        rw [noSpaceRun_cons2]
        have hrun : noSpaceRun (y :: ys) = true := by
          rw [← hR]
          exact ih false
        simp only [ha, Bool.false_and, Bool.not_false, Bool.true_and]
        exact hrun

/-- Collapsing is the identity on a string whose whitespace is single plain
spaces separated by non-whitespace (and, in run mode, that does not start
with whitespace). -/
theorem collapseAux_fix :
    ∀ (l : Str),
      (∀ c ∈ l, pyIsSpace c = true → c = ' ') →
      noSpaceRun l = true →
      ∀ b : Bool, (b = true → ∀ x xs, l = x :: xs → pyIsSpace x = false) →
      collapseAux b l = l := by
  intro l
  induction l with
  | nil =>
    intro _ _ b _
    cases b <;> rfl
  | cons a rest ih =>
    intro hall hrun b hhead
    have halltail : ∀ c ∈ rest, pyIsSpace c = true → c = ' ' :=
      fun c hc => hall c (List.mem_cons_of_mem _ hc)
    have hruntail : noSpaceRun rest = true := noSpaceRun_tail a rest hrun
    unfold collapseAux
    by_cases ha : pyIsSpace a = true
    · have ha' : a = ' ' := hall a (List.mem_cons_self _ _) ha
      cases b with
      | true => exact absurd (hhead rfl a rest rfl) (by simp [ha])
      | false =>
        rw [if_pos ha]
        show ' ' :: collapseAux true rest = a :: rest
        rw [ha']
        congr 1
        apply ih halltail hruntail true
        intro _ x xs hx
        subst hx
        rw [noSpaceRun_cons2, Bool.and_eq_true] at hrun
        have h1 := hrun.1
        rw [ha] at h1
        simpa using h1
    · rw [if_neg ha]
      congr 1
      apply ih halltail hruntail false
      intro h
      exact absurd h (by decide)

/-- The head of dropWhile pyIsSpace is not whitespace. -/
theorem dropWhile_head_notSpace :
    ∀ (l : Str) (x : Char) (xs : Str),
      l.dropWhile pyIsSpace = x :: xs → pyIsSpace x = false := by
  intro l
  induction l with
  | nil =>
    intro x xs h
    simp at h
  | cons a rest ih =>
    intro x xs h
    rw [List.dropWhile_cons] at h
    by_cases ha : pyIsSpace a = true
    · rw [if_pos ha] at h
      exact ih x xs h
    · rw [if_neg ha] at h
      injection h with h1 _
      rw [← h1]
      simpa using ha

/-- dropWhile is the identity when the head fails the predicate. -/
theorem dropWhile_fix (l : Str)
    (h : ∀ x xs, l = x :: xs → pyIsSpace x = false) :
    l.dropWhile pyIsSpace = l := by
  cases l with
  | nil => rfl
  | cons a rest =>
    rw [List.dropWhile_cons, if_neg]
    simp [h a rest rfl]

/-- dropWhile does not disturb the no-adjacent-whitespace shape. -/
theorem noSpaceRun_dropWhile (l : Str) (h : noSpaceRun l = true) :
    noSpaceRun (l.dropWhile pyIsSpace) = true := by
  induction l with
  | nil => rfl
  | cons a rest ih =>
    rw [List.dropWhile_cons]
    by_cases ha : pyIsSpace a = true
    · rw [if_pos ha]
      exact ih (noSpaceRun_tail a rest h)
    · rw [if_neg ha]
      exact h

/-- Unfolding dropTrailingWs at a cons. -/
theorem dropTrailingWs_eq (a : Char) (rest : Str) :
    dropTrailingWs (a :: rest) =
      match dropTrailingWs rest with
      | [] => if pyIsSpace a then [] else [a]
      | r => a :: r := rfl

/-- A nonempty dropTrailingWs keeps the original head. -/
theorem dropTrailingWs_head :
    ∀ (l : Str) (x : Char) (xs : Str),
      dropTrailingWs l = x :: xs → ∃ t, l = x :: t := by
  intro l x xs h
  cases l with
  | nil => simp [dropTrailingWs] at h
  | cons a rest =>
    rw [dropTrailingWs_eq] at h
    cases hr : dropTrailingWs rest with
    | nil =>
      rw [hr] at h
      by_cases ha : pyIsSpace a = true
      · simp [ha] at h
      · simp only [ha] at h
        simp at h
        exact ⟨rest, by rw [h.1]⟩
    | cons y ys =>
      rw [hr] at h
      injection h with h1 _
      exact ⟨rest, by rw [h1]⟩

/-- Characters surviving dropTrailingWs come from the input. -/
theorem dropTrailingWs_mem :
    ∀ (l : Str) (c : Char), c ∈ dropTrailingWs l → c ∈ l := by
  intro l
  induction l with
  | nil =>
    intro c hc
    simp [dropTrailingWs] at hc
  | cons a rest ih =>
    intro c hc
    rw [dropTrailingWs_eq] at hc
    cases hr : dropTrailingWs rest with
    | nil =>
      rw [hr] at hc
      by_cases ha : pyIsSpace a = true
      · simp [ha] at hc
      · simp only [ha] at hc
        simp at hc
        simp [hc]
    | cons y ys =>
      rw [hr] at hc
      rcases List.mem_cons.mp hc with h | h
      · simp [h]
      · exact List.mem_cons_of_mem _ (ih c (hr ▸ h))

/-- dropTrailingWs does not disturb the no-adjacent-whitespace shape. -/
theorem noSpaceRun_dropTrailingWs :
    ∀ (l : Str), noSpaceRun l = true →
      noSpaceRun (dropTrailingWs l) = true := by
  intro l
  induction l with
  | nil =>
    intro _
    rfl
  | cons a rest ih =>
    intro h
    rw [dropTrailingWs_eq]
    cases hr : dropTrailingWs rest with
    | nil =>
      by_cases ha : pyIsSpace a = true
      · simp [ha]
        rfl
      · simp [ha]
        rfl
    | cons y ys =>
      have htail : noSpaceRun (y :: ys) = true := by
        rw [← hr]
        exact ih (noSpaceRun_tail a rest h)
      rcases dropTrailingWs_head rest y ys hr with ⟨t, ht⟩
      rw [noSpaceRun_cons2]
      have hpair : (!(pyIsSpace a && pyIsSpace y)) = true := by
        rw [ht] at h
        rw [noSpaceRun_cons2, Bool.and_eq_true] at h
        exact h.1
      rw [hpair, htail]
      rfl

/-- The last surviving character of dropTrailingWs is not whitespace. -/
theorem dropTrailingWs_last :
    ∀ (l : Str) (x : Char),
      (dropTrailingWs l).getLast? = some x → pyIsSpace x = false := by
  intro l
  induction l with
  | nil =>
    intro x hx
    simp [dropTrailingWs] at hx
  | cons a rest ih =>
    intro x hx
    rw [dropTrailingWs_eq] at hx
    cases hr : dropTrailingWs rest with
    | nil =>
      rw [hr] at hx
      by_cases ha : pyIsSpace a = true
      · simp [ha] at hx
      · simp only [ha] at hx
        simp at hx
        rw [← hx]
        simpa using ha
    | cons y ys =>
      rw [hr] at hx
      rw [List.getLast?_cons_cons] at hx
      exact ih x (hr ▸ hx)

/-- dropTrailingWs is the identity when the last character is not
whitespace. -/
theorem dropTrailingWs_fix :
    ∀ (l : Str), (∀ x, l.getLast? = some x → pyIsSpace x = false) →
      dropTrailingWs l = l := by
  intro l
  induction l with
  | nil =>
    intro _
    rfl
  | cons a rest ih =>
    intro h
    rw [dropTrailingWs_eq]
    cases rest with
    | nil =>
      have ha : pyIsSpace a = false := h a rfl
      show (if pyIsSpace a = true then [] else [a]) = [a]
      simp [ha]
    | cons b rest2 =>
      have hr : dropTrailingWs (b :: rest2) = b :: rest2 := by
        apply ih
        intro x hx
        apply h
        rw [List.getLast?_cons_cons]
        exact hx
      rw [hr]


/-- A map that fixes every element of a list fixes the list. -/
theorem map_fix (f : Char → Char) :
    ∀ (l : Str), (∀ c ∈ l, f c = c) → l.map f = l := by
  intro l
  induction l with
  | nil =>
    intro _
    rfl
  | cons a rest ih =>
    intro h
    rw [List.map_cons, h a (List.mem_cons_self _ _),
      ih (fun c hc => h c (List.mem_cons_of_mem _ hc))]

/-- getLast? commutes with map. -/
theorem getLast?_map (f : Char → Char) :
    ∀ (l : Str), (l.map f).getLast? = l.getLast?.map f := by
  intro l
  induction l with
  | nil => rfl
  | cons a rest ih =>
    cases rest with
    | nil => rfl
    | cons b rest2 =>
      rw [List.map_cons, List.map_cons, List.getLast?_cons_cons,
        List.getLast?_cons_cons, ← List.map_cons f b rest2, ih]

/-- A whitespace-preserving character map preserves the
no-adjacent-whitespace shape. -/
theorem noSpaceRun_map (f : Char → Char)
    (hf : ∀ c, pyIsSpace (f c) = pyIsSpace c) :
    ∀ (l : Str), noSpaceRun (l.map f) = noSpaceRun l := by
  intro l
  induction l with
  | nil => rfl
  | cons a rest ih =>
    cases rest with
    | nil => rfl
    | cons b rest2 =>
      rw [List.map_cons, List.map_cons, noSpaceRun_cons2, noSpaceRun_cons2,
        hf a, hf b, ← List.map_cons f b rest2, ih]

/-- The five replace passes of normalize_label never output NBSP or a curly
quote. -/
theorem replaceFive_notCurly (x : Str) :
    ∀ c ∈ pyReplaceChar 8221 (Char.ofNat 34)
      (pyReplaceChar 8220 (Char.ofNat 34)
        (pyReplaceChar 8216 (Char.ofNat 39)
          (pyReplaceChar 8217 (Char.ofNat 39)
            (pyReplaceChar 160 ' ' x)))),
      c.toNat ≠ 160 ∧ c.toNat ≠ 8217 ∧ c.toNat ≠ 8216 ∧ c.toNat ≠ 8220 ∧
        c.toNat ≠ 8221 := by
  intro c hc
  unfold pyReplaceChar at hc
  simp only [List.map_map] at hc
  rcases List.mem_map.mp hc with ⟨c0, _, rfl⟩
  simp only [Function.comp]
  split_ifs <;> first | decide | (constructor <;> omega)


/-- Shape of pyLowerStr (pyStrip (collapseWs v)) for any v without NBSP or
curly quotes: whitespace is reduced to single interior plain spaces, every
character is fixed by pyLower, and no NBSP or curly quote appears. -/
theorem normalized_shape_core (v : Str)
    (hv : ∀ c ∈ v, c.toNat ≠ 160 ∧ c.toNat ≠ 8217 ∧ c.toNat ≠ 8216 ∧
      c.toNat ≠ 8220 ∧ c.toNat ≠ 8221) :
    (∀ c ∈ pyLowerStr (pyStrip (collapseWs v)), pyIsSpace c = true → c = ' ') ∧
    noSpaceRun (pyLowerStr (pyStrip (collapseWs v))) = true ∧
    (∀ y ys, pyLowerStr (pyStrip (collapseWs v)) = y :: ys →
      pyIsSpace y = false) ∧
    (∀ y, (pyLowerStr (pyStrip (collapseWs v))).getLast? = some y →
      pyIsSpace y = false) ∧
    (∀ c ∈ pyLowerStr (pyStrip (collapseWs v)), pyLower c = c) ∧
    (∀ c ∈ pyLowerStr (pyStrip (collapseWs v)),
      c.toNat ≠ 160 ∧ c.toNat ≠ 8217 ∧ c.toNat ≠ 8216 ∧ c.toNat ≠ 8220 ∧
        c.toNat ≠ 8221) := by
  have wmem : ∀ c ∈ collapseWs v, c = ' ' ∨ (c ∈ v ∧ pyIsSpace c = false) :=
    fun c hc => collapseAux_mem v false c hc
  have wrun : noSpaceRun (collapseWs v) = true := noSpaceRun_collapseAux v false
  have zmem : ∀ c ∈ pyStrip (collapseWs v),
      c = ' ' ∨ (c ∈ v ∧ pyIsSpace c = false) := by
    intro c hc
    unfold pyStrip at hc
    have hc2 := dropTrailingWs_mem _ c hc
    have hc3 := (List.dropWhile_sublist pyIsSpace).subset hc2
    exact wmem c hc3
  have zrun : noSpaceRun (pyStrip (collapseWs v)) = true := by
    unfold pyStrip
    exact noSpaceRun_dropTrailingWs _ (noSpaceRun_dropWhile _ wrun)
  have zhead : ∀ y ys, pyStrip (collapseWs v) = y :: ys →
      pyIsSpace y = false := by
    intro y ys h
    unfold pyStrip at h
    rcases dropTrailingWs_head _ y ys h with ⟨t, ht⟩
    exact dropWhile_head_notSpace _ y t ht
  have zlast : ∀ y, (pyStrip (collapseWs v)).getLast? = some y →
      pyIsSpace y = false := by
    intro y h
    unfold pyStrip at h
    exact dropTrailingWs_last _ y h
  refine ⟨?_, ?_, ?_, ?_, ?_, ?_⟩
  · intro c hc hsp
    unfold pyLowerStr at hc
    rcases List.mem_map.mp hc with ⟨d, hd, rfl⟩
    rw [pyIsSpace_pyLower] at hsp
    rcases zmem d hd with h' | ⟨_, hns⟩
    · rw [h']
      decide
    · rw [hsp] at hns
      cases hns
  · unfold pyLowerStr
    rw [noSpaceRun_map pyLower pyIsSpace_pyLower]
    exact zrun
  · intro y ys h
    unfold pyLowerStr at h
    cases hzc : pyStrip (collapseWs v) with
    | nil =>
      rw [hzc] at h
      simp at h
    | cons d ds =>
      rw [hzc, List.map_cons] at h
      injection h with h1 _
      rw [← h1, pyIsSpace_pyLower]
      exact zhead d ds hzc
  · intro y h
    unfold pyLowerStr at h
    rw [getLast?_map] at h
    cases hl : (pyStrip (collapseWs v)).getLast? with
    | none =>
      rw [hl] at h
      simp at h
    | some d =>
      rw [hl] at h
      have h1 : pyLower d = y := by
        simpa using h
      rw [← h1, pyIsSpace_pyLower]
      exact zlast d hl
  · intro c hc
    unfold pyLowerStr at hc
    rcases List.mem_map.mp hc with ⟨d, _, rfl⟩
    exact pyLower_idem d
  · intro c hc
    unfold pyLowerStr at hc
    rcases List.mem_map.mp hc with ⟨d, hd, rfl⟩
    have ht := pyLower_toNat d
    by_cases h1 : (65 ≤ d.toNat ∧ d.toNat ≤ 90) ∨
        (1040 ≤ d.toNat ∧ d.toNat ≤ 1071)
    · rw [if_pos h1] at ht
      omega
    · rw [if_neg h1] at ht
      by_cases h2 : 1024 ≤ d.toNat ∧ d.toNat ≤ 1039
      · rw [if_pos h2] at ht
        omega
      · rw [if_neg h2] at ht
        rcases zmem d hd with h' | ⟨hdv, _⟩
        · have h32 : d.toNat = 32 := by
            rw [h']
            rfl
          omega
        · have := hv d hdv
          omega

/-- The shape facts hold for the output of normalize_label. -/
theorem normalize_label_shape (x : Str) :
    (∀ c ∈ normalize_label x, pyIsSpace c = true → c = ' ') ∧
    noSpaceRun (normalize_label x) = true ∧
    (∀ y ys, normalize_label x = y :: ys → pyIsSpace y = false) ∧
    (∀ y, (normalize_label x).getLast? = some y → pyIsSpace y = false) ∧
    (∀ c ∈ normalize_label x, pyLower c = c) ∧
    (∀ c ∈ normalize_label x,
      c.toNat ≠ 160 ∧ c.toNat ≠ 8217 ∧ c.toNat ≠ 8216 ∧ c.toNat ≠ 8220 ∧
        c.toNat ≠ 8221) := by
  unfold normalize_label
  exact normalized_shape_core _ (replaceFive_notCurly x)

/-- A string with the shape facts is a fixed point of normalize_label. -/
theorem normalized_fix (y : Str)
    (e1 : ∀ c ∈ y, pyIsSpace c = true → c = ' ')
    (e2 : noSpaceRun y = true)
    (e3 : ∀ x xs, y = x :: xs → pyIsSpace x = false)
    (e4 : ∀ x, y.getLast? = some x → pyIsSpace x = false)
    (e5 : ∀ c ∈ y, pyLower c = c)
    (e6 : ∀ c ∈ y, c.toNat ≠ 160 ∧ c.toNat ≠ 8217 ∧ c.toNat ≠ 8216 ∧
      c.toNat ≠ 8220 ∧ c.toNat ≠ 8221) :
    normalize_label y = y := by
  have r1 : pyReplaceChar 160 ' ' y = y := by
    unfold pyReplaceChar
    exact map_fix _ y (fun c hc => if_neg ((e6 c hc).1))
  have r2 : pyReplaceChar 8217 (Char.ofNat 39) y = y := by
    unfold pyReplaceChar
    exact map_fix _ y (fun c hc => if_neg ((e6 c hc).2.1))
  have r3 : pyReplaceChar 8216 (Char.ofNat 39) y = y := by
    unfold pyReplaceChar
    exact map_fix _ y (fun c hc => if_neg ((e6 c hc).2.2.1))
  have r4 : pyReplaceChar 8220 (Char.ofNat 34) y = y := by
    unfold pyReplaceChar
    exact map_fix _ y (fun c hc => if_neg ((e6 c hc).2.2.2.1))
  have r5 : pyReplaceChar 8221 (Char.ofNat 34) y = y := by
    unfold pyReplaceChar
    exact map_fix _ y (fun c hc => if_neg ((e6 c hc).2.2.2.2))
  have rc : collapseWs y = y := by
    unfold collapseWs
    exact collapseAux_fix y e1 e2 false (fun h => absurd h (by decide))
  have rs : pyStrip y = y := by
    unfold pyStrip
    rw [dropWhile_fix y e3, dropTrailingWs_fix y e4]
  have rl : pyLowerStr y = y := by
    unfold pyLowerStr
    exact map_fix pyLower y e5
  unfold normalize_label
  rw [r1, r2, r3, r4, r5, rc, rs, rl]

/-- C7: normalize_label is idempotent — normalizing an already normalized
string changes nothing. -/
theorem normalizeIdempotent (x : Str) :
    normalize_label (normalize_label x) = normalize_label x := by
  obtain ⟨e1, e2, e3, e4, e5, e6⟩ := normalize_label_shape x
  exact normalized_fix _ e1 e2 e3 e4 e5 e6


end YearEndBot
